import Mathlib

/-!
Shallow embedding of `ez_mcp_toolbox/mcp_utils.py` (class `MCPManager` and
the helper `_mcp_tools_to_openai_tools`), together with theorems settling
the frozen claims about the session multiplexer: name resolution, the
linear-scan fallback, argument parsing, result rendering (image placeholder
and the 10 MiB size gate), environment override/restore around connect, and
best-effort `connect_all_servers`.

Python values are modelled as follows: JSON values as the inductive `Json`;
`json.loads` as an abstract parse oracle `String → Option Json` (`none`
models `json.JSONDecodeError`); awaited MCP operations that may raise as
`Except String`-valued data carried by each `Session`; the process-wide
environment `os.environ` as `String → Option String`; the `self.sessions`
dict as an association list in insertion order.
-/

/-- JSON values, as produced by `json.loads` and consumed by `json.dumps`.
Numbers are restricted to integers; no claim depends on float payloads. -/
inductive Json where
  | null
  | bool (b : Bool)
  | num (n : Int)
  | str (s : String)
  | arr (xs : List Json)
  | obj (fields : List (String × Json))

/-- Python truthiness of a JSON value (`bool(x)` for the decoded object):
`None`, `False`, `0`, `""`, `[]` and `{}` are falsy. -/
def Json.isTruthy : Json → Bool
  | .null => false
  | .bool b => b
  | .num n => n != 0
  | .str s => s != ""
  | .arr xs => !xs.isEmpty
  | .obj fields => !fields.isEmpty

/-- `d.get(k)` on a decoded JSON object (dict keys are unique in Python). -/
def Json.getField (fields : List (String × Json)) (k : String) : Option Json :=
  match fields with
  | [] => none
  | (k', v) :: rest => if k' = k then some v else Json.getField rest k

/-- One hex digit, lowercase, as emitted by `json.dumps` in `\uXXXX` escapes. -/
def hexDigit (n : Nat) : Char :=
  if n < 10 then Char.ofNat (48 + n) else Char.ofNat (87 + n)

/-- Four lowercase hex digits of `n % 65536`. -/
def hex4 (n : Nat) : String :=
  String.mk [hexDigit (n / 4096 % 16), hexDigit (n / 256 % 16),
             hexDigit (n / 16 % 16), hexDigit (n % 16)]

/-- Escape one character of a JSON string the way `json.dumps` does with its
default `ensure_ascii=True`: printable ASCII verbatim, two-character escapes
for quote/backslash/controls, `\uXXXX` otherwise (surrogate pairs beyond
the BMP). -/
def jsonEscapeChar (c : Char) : String :=
  if c = '"' then "\\\""
  else if c = '\\' then "\\\\"
  else if c = '\n' then "\\n"
  else if c = '\t' then "\\t"
  else if c = '\r' then "\\r"
  else if c.toNat = 8 then "\\b"
  else if c.toNat = 12 then "\\f"
  else if c.toNat < 32 ∨ c.toNat > 126 then
    if c.toNat < 65536 then "\\u" ++ hex4 c.toNat
    else
      let v := c.toNat - 65536
      "\\u" ++ hex4 (55296 + v / 1024) ++ "\\u" ++ hex4 (56320 + v % 1024)
  else String.mk [c]

/-- Serialize a Python string literal as `json.dumps` does. -/
def jsonEscape (s : String) : String :=
  s.data.foldl (fun acc c => acc ++ jsonEscapeChar c) "\""  ++ "\""

mutual

/-- `json.dumps(v, separators=(",", ":"))`: compact JSON encoding. -/
def Json.dumps : Json → String
  | .null => "null"
  | .bool true => "true"
  | .bool false => "false"
  | .num n => toString n
  | .str s => jsonEscape s
  | .arr xs => "[" ++ Json.dumpsList xs ++ "]"
  | .obj fields => "\x7b" ++ Json.dumpsFields fields ++ "\x7d"

/-- Comma-joined serialization of array elements. -/
def Json.dumpsList : List Json → String
  | [] => ""
  | [x] => Json.dumps x
  | x :: rest => Json.dumps x ++ "," ++ Json.dumpsList rest

/-- Comma-joined serialization of object entries with `:` separators. -/
def Json.dumpsFields : List (String × Json) → String
  | [] => ""
  | [(k, v)] => jsonEscape k ++ ":" ++ Json.dumps v
  | (k, v) :: rest => jsonEscape k ++ ":" ++ Json.dumps v ++ "," ++ Json.dumpsFields rest

end

/-- One tool as reported by a backend's `list_tools` response
(`{name, description, inputSchema}`). -/
structure ToolSpec where
  name : String
  description : Option String
  inputSchema : Option Json

/-- One item of an MCP result's `content` list: either it exposes a `text`
attribute (carrying that text) or it does not. -/
inductive ContentItem where
  | text (t : String)
  | noText
deriving Repr, DecidableEq

/-- The `content` attribute of an MCP `call_tool` result, classified by the
shape checks of `execute_tool_call`. `strRepr` carries the Python `str()`
rendering of the list, which a shallow embedding cannot recompute.
`nonSerializable` models content on which `json.dumps` raises; its field is
`str(result.content)`, the fallback the `except` branch produces. -/
inductive MCPContent where
  | items (l : List ContentItem) (strRepr : String)
  | dict (fields : List (String × Json))
  | jsonable (v : Json)
  | nonSerializable (strRepr : String)

/-- An MCP `call_tool` result: an optional `content` attribute and the
`str(result)` rendering used when `content` is absent or `None`. -/
structure CallToolResult where
  content : Option MCPContent
  strRepr : String

/-- A live MCP client session. `listTools` models `await session.list_tools()`
(`Except.error` = the await raised); `callTool` models
`await session.call_tool(name, args)`. -/
structure Session where
  listTools : Except String (List ToolSpec)
  callTool : String → Json → Except String CallToolResult

/-- `self.sessions`: dict from server name to session, in insertion order. -/
abbrev Pool := List (String × Session)

/-- Configuration for an MCP server (dataclass `ServerConfig`). -/
structure ServerConfig where
  name : String
  description : String
  command : String
  args : List String
  env : Option (List (String × String))

/-- The process-wide environment `os.environ`. -/
abbrev Env := String → Option String

/-- `os.environ[k] = v`. -/
def envSet (e : Env) (k v : String) : Env :=
  fun k' => if k' = k then some v else e k'

/-- `os.environ.pop(k, None)`. -/
def envPop (e : Env) (k : String) : Env :=
  fun k' => if k' = k then none else e k'

/-- `fn_name.split("_", 1)` on the character list: split at the first
occurrence of `sep`, or `none` when `sep` does not occur (the
`if "_" in fn_name` test). -/
def splitFirstAux (sep : Char) : List Char → Option (List Char × List Char)
  | [] => none
  | c :: cs =>
    if c = sep then some ([], cs)
    else
      match splitFirstAux sep cs with
      | none => none
      | some (a, b) => some (c :: a, b)

/-- Lines 170-182: `(server_name, actual_tool_name)` when `fn_name` contains
an underscore; `none` models the no-underscore fallback. -/
def splitFirstUnderscore (s : String) : Option (String × String) :=
  match splitFirstAux '_' s.data with
  | none => none
  | some (a, b) => some (String.mk a, String.mk b)

/-- `self.sessions[name]` / `name in self.sessions` (dict keys unique). -/
def lookupPool (pool : Pool) (name : String) : Option Session :=
  match pool with
  | [] => none
  | (k, s) :: rest => if k = name then some s else lookupPool rest name

/-- Lines 188-197: the fallback scan over `self.sessions.items()`: the first
session whose `list_tools` succeeds and reports a tool named `actual`;
sessions whose `list_tools` raises are skipped. -/
def scanForTool (pool : Pool) (actual : String) : Option Session :=
  match pool with
  | [] => none
  | (_, s) :: rest =>
    match s.listTools with
    | Except.error _ => scanForTool rest actual
    | Except.ok tools =>
      if (tools.map ToolSpec.name).contains actual then some s
      else scanForTool rest actual

/-- Lines 169-200: resolution of an invoked name to the local tool name and,
when found, a target session. Note `if server_name and ...`: an empty
candidate backend name is falsy in Python and also triggers the scan. -/
def resolveTool (pool : Pool) (fnName : String) : String × Option Session :=
  match splitFirstUnderscore fnName with
  | none => (fnName, scanForTool pool fnName)
  | some (pre, suf) =>
    if pre = "" then (suf, scanForTool pool suf)
    else
      match lookupPool pool pre with
      | some s => (suf, some s)
      | none => (suf, scanForTool pool suf)

/-- Lines 162-167: `tool_call.function.arguments or "\x7b\x7d"` followed by
`json.loads` with `json.JSONDecodeError` degrading to the empty dict.
`none` models an absent/None arguments field. -/
def argsOf (parse : String → Option Json) (argumentsRaw : Option String) : Json :=
  let argsRaw : String :=
    match argumentsRaw with
    | none => "\x7b\x7d"
    | some s => if s = "" then "\x7b\x7d" else s
  match parse argsRaw with
  | some j => j
  | none => Json.obj []

/-- Lines 225-229 / 242-246: `d.get("type") == "image_result" and
"image_base64" in d` on a decoded dict. -/
def isImageResultObj (fields : List (String × Json)) : Bool :=
  (match Json.getField fields "type" with
   | some (Json.str s) => s = "image_result"
   | _ => false)
  && (Json.getField fields "image_base64").isSome

/-- Line 235 / 250: the placeholder returned for image results. -/
def imagePlaceholder (toolName : String) : String :=
  "Image result from " ++ toolName ++ " (base64 data)"

/-- Outcome of the content-shape analysis: `done` models the early `return`
of the image placeholder; `body` carries `content_str`, which still passes
through the size gate. -/
inductive RenderStep where
  | done (s : String)
  | body (s : String)

/-- Lines 211-262: classify `result.content` and produce either the image
placeholder (early return) or `content_str`. The empty-list case reaches
`json.dumps(content_data)`, which renders `[]` as "[]"; `nonSerializable`
is content on which `json.dumps` raises, so the outer `except` falls back
to `str(result.content)`. -/
def processContent (parse : String → Option Json) (toolName : String) :
    Option MCPContent → String → RenderStep
  | none, resultStr => RenderStep.body resultStr
  | some (MCPContent.items [] _), _ => RenderStep.body "[]"
  | some (MCPContent.items (first :: _) strRepr), _ =>
    (match first with
     | ContentItem.text t =>
       (match parse t with
        | some (Json.obj fields) =>
          if isImageResultObj fields then RenderStep.done (imagePlaceholder toolName)
          else RenderStep.body strRepr
        | _ => RenderStep.body strRepr)
     | ContentItem.noText => RenderStep.body strRepr)
  | some (MCPContent.dict fields), _ =>
    if isImageResultObj fields then RenderStep.done (imagePlaceholder toolName)
    else RenderStep.body (Json.dumps (Json.obj fields))
  | some (MCPContent.jsonable v), _ => RenderStep.body (Json.dumps v)
  | some (MCPContent.nonSerializable strRepr), _ => RenderStep.body strRepr

/-- Line 270: `max_result_size = 10 * 1024 * 1024`. -/
def maxResultSize : Nat := 10 * 1024 * 1024

/-- Digit grouping of Python's `f"{n:,}"` (walked from the least significant
digit, a comma before every later group of three). -/
def commaFmtAux : Nat → List Char → List Char
  | _, [] => []
  | i, c :: rest =>
    if 0 < i ∧ i % 3 = 0 then ',' :: c :: commaFmtAux (i + 1) rest
    else c :: commaFmtAux (i + 1) rest

/-- Python `f"{n:,}"`: decimal digits grouped by thousands with commas. -/
def commaFmt (n : Nat) : String :=
  String.mk (commaFmtAux 0 (toString n).data.reverse).reverse

/-- Lines 276-283: the fixed-shape summary replacing an oversized body.
The first characters of two lines reproduce the source file's literal
(mojibake) emoji bytes. -/
def largeResultSummary (toolName : String) (size : Nat) : String :=
  "âš ï¸ **Large result from " ++ toolName ++ "**\n\n" ++
  "ðŸ“Š **Result Info:**\n" ++
  "- Size: " ++ commaFmt size ++ " characters\n" ++
  "- Tool: " ++ toolName ++ "\n" ++
  "- Status: Completed successfully\n\n" ++
  "*Note: Result too large to display inline. Consider using a different approach or tool.*"

/-- Lines 211-285: stringify the call result and apply the size gate to
`content_str`; the image placeholder returns before the gate. -/
def renderResult (parse : String → Option Json) (toolName : String)
    (result : CallToolResult) : String :=
  match processContent parse toolName result.content result.strRepr with
  | RenderStep.done s => s
  | RenderStep.body contentStr =>
    if contentStr.length > maxResultSize then
      largeResultSummary toolName contentStr.length
    else contentStr

/-- Lines 202-289: call the tool on the chosen session and render, with the
`except` clause converting a raised exception into an error string. -/
def dispatchCall (parse : String → Option Json) (session : Session)
    (actual : String) (args : Json) : String :=
  match session.callTool actual args with
  | Except.error e => "Error executing tool \x27" ++ actual ++ "\x27: " ++ e
  | Except.ok result => renderResult parse actual result

/-- Lines 184-289 after argument parsing: resolve the session, call the
tool, and convert every protocol exception into an error string. The
codomain `Except String String` makes an uncaught exception expressible;
every branch of the source catches, so only `Except.ok` is produced. -/
def executeWithArgs (parse : String → Option Json) (pool : Pool)
    (fnName : String) (args : Json) : Except String String :=
  match resolveTool pool fnName with
  | (actual, none) =>
    Except.ok ("Error: Tool \x27" ++ actual ++ "\x27 not found in any connected server")
  | (actual, some session) =>
    Except.ok (dispatchCall parse session actual args)

/-- Lines 159-289: `MCPManager.execute_tool_call`. `parse` is the
`json.loads` oracle, `argumentsRaw` is `tool_call.function.arguments`. -/
def execute_tool_call (parse : String → Option Json) (pool : Pool)
    (fnName : String) (argumentsRaw : Option String) : Except String String :=
  executeWithArgs parse pool fnName (argsOf parse argumentsRaw)

/-- The `function` part of the OpenAI-shaped tool dict. -/
structure OpenAIFunction where
  name : String
  description : String
  parameters : Json

/-- One entry of `_mcp_tools_to_openai_tools`'s output:
`{"type": "function", "function": {...}}`. -/
structure OpenAITool where
  type : String
  function : OpenAIFunction

/-- The default parameters schema used when a backend supplies none. -/
def defaultParamsSchema : Json :=
  Json.obj [("type", Json.str "object"), ("properties", Json.obj [])]

/-- Lines 296-311: `_mcp_tools_to_openai_tools`. `t.description or ""` and
`t.inputSchema or default` follow Python truthiness (None and falsy values
fall back). -/
def mcp_tools_to_openai_tools (tools : List ToolSpec) : List OpenAITool :=
  tools.map fun t =>
    { type := "function"
      function :=
        { name := t.name
          description :=
            match t.description with
            | none => ""
            | some d => if d = "" then "" else d
          parameters :=
            match t.inputSchema with
            | none => defaultParamsSchema
            | some j => if j.isTruthy then j else defaultParamsSchema } }

/-- Lines 140-157: `_get_all_tools`: per-session tool lists converted to the
OpenAI shape and qualified as `server_name + "_" + name`; sessions whose
`list_tools` raises are skipped with a warning. -/
def get_all_tools : Pool → List OpenAITool
  | [] => []
  | (serverName, session) :: rest =>
    match session.listTools with
    | Except.error _ => get_all_tools rest
    | Except.ok tools =>
      ((mcp_tools_to_openai_tools tools).map fun t =>
        { t with function := { t.function with name := serverName ++ "_" ++ t.function.name } })
      ++ get_all_tools rest

/-- The qualified names occurring in the aggregated catalog. -/
def catalogNames (pool : Pool) : List String :=
  (get_all_tools pool).map fun t => t.function.name

/-- The local tool names a session reports (empty when `list_tools` raises). -/
def sessionToolNames (s : Session) : List String :=
  match s.listTools with
  | Except.ok tools => tools.map ToolSpec.name
  | Except.error _ => []

/-- Lines 111-114: the capture/override loop of `_connect_server`: for each
override in order, record `os.environ.get(key)` into `original_env` and set
the override. Returns the mutated environment and the captured list in
iteration order. -/
def applyOverrides : List (String × String) → Env → Env × List (String × Option String)
  | [], e => (e, [])
  | (k, v) :: rest, e =>
    let cap := (k, e k)
    let res := applyOverrides rest (envSet e k v)
    (res.1, cap :: res.2)

/-- Lines 133-138: the `finally` block: restore each captured entry, popping
keys that had no prior value. -/
def restoreEnv : List (String × Option String) → Env → Env
  | [], e => e
  | (k, orig) :: rest, e =>
    restoreEnv rest (match orig with
                     | none => envPop e k
                     | some v => envSet e k v)

/-- Lines 106-138: one `_connect_server` attempt, as a transformer of the
process environment. `launch` models the `stdio_client` + `ClientSession` +
`initialize` sequence run under the (possibly overridden) environment;
`if server_config.env:` is Python truthiness, so `None` and the empty dict
skip the override machinery. Returns the environment after the `finally`
restore together with the launch outcome. -/
def connectAttempt (launch : ServerConfig → Env → Except String Session)
    (sc : ServerConfig) (env : Env) : Env × Except String Session :=
  match sc.env with
  | none => (env, launch sc env)
  | some ov =>
    if ov.isEmpty then (env, launch sc env)
    else
      let applied := applyOverrides ov env
      let r := launch sc applied.1
      (restoreEnv applied.2 applied.1, r)

/-- `self.sessions[name] = session`: dict assignment keeps the position of
an existing key and appends a fresh one. -/
def poolInsert : Pool → String → Session → Pool
  | [], k, s => [(k, s)]
  | (k', s') :: rest, k, s =>
    if k' = k then (k, s) :: rest else (k', s') :: poolInsert rest k s

/-- Lines 106-138 at the pool level: a successful attempt registers the
session under the server's name; a failed one leaves the pool unchanged
(the exception propagates to `connect_all_servers`). -/
def connect_server (launch : ServerConfig → Env → Except String Session)
    (sc : ServerConfig) (env : Env) (pool : Pool) : Env × Pool :=
  match connectAttempt launch sc env with
  | (env2, Except.ok session) => (env2, poolInsert pool sc.name session)
  | (env2, Except.error _) => (env2, pool)

/-- Lines 90-104: `connect_all_servers`: every descriptor is attempted in
order; a failure is caught (and printed) without aborting the rest. -/
def connect_all_servers (launch : ServerConfig → Env → Except String Session)
    (env : Env) (pool : Pool) : List ServerConfig → Env × Pool
  | [] => (env, pool)
  | sc :: rest =>
    let st := connect_server launch sc env pool
    connect_all_servers launch st.1 st.2 rest

/-- Modelled from the spec (§4.2): the pool that contains exactly the
sessions of the backends whose connection attempt succeeded, keyed by
backend name, in descriptor order. Used as the specification-side value
that `connect_all_servers` is proved to produce. -/
def specSuccessPool (launch : ServerConfig → Env → Except String Session) :
    Env → List ServerConfig → List (String × Session)
  | _, [] => []
  | env, sc :: rest =>
    match connectAttempt launch sc env with
    | (env2, Except.ok s) => (sc.name, s) :: specSuccessPool launch env2 rest
    | (env2, Except.error _) => specSuccessPool launch env2 rest

/-- A minimal tool descriptor used by concrete test pools. -/
def toolSpecNamed (n : String) : ToolSpec :=
  { name := n, description := none, inputSchema := none }

/-- A concrete session exposing the given tool names whose calls succeed
with no content and a `str(result)` of `tag ++ ":" ++ name`. -/
def constSession (toolNames : List String) (tag : String) : Session :=
  { listTools := Except.ok (toolNames.map toolSpecNamed)
    callTool := fun n _ => Except.ok { content := none, strRepr := tag ++ ":" ++ n } }

/-- Two backends both exposing a local tool `search`. -/
def poolAB : Pool :=
  [("alpha", constSession ["search"] "A"), ("beta", constSession ["search"] "B")]

/-- Splitting a list whose left part avoids the separator recovers the
parts. -/
theorem splitFirstAux_append (l r : List Char) (h : '_' ∉ l) :
    splitFirstAux '_' (l ++ '_' :: r) = some (l, r) := by
  induction l with
  | nil => simp [splitFirstAux]
  | cons c cs ih =>
    simp only [List.mem_cons, not_or] at h
    have hc : ¬ c = '_' := fun hc => h.1 hc.symm
    simp [splitFirstAux, hc, ih h.2]

/-- A qualified name built from an underscore-free backend name splits back
into its parts at the first underscore. -/
theorem splitFirstUnderscore_qualified (b t : String) (h : '_' ∉ b.data) :
    splitFirstUnderscore (b ++ "_" ++ t) = some (b, t) := by
  have hd : (b ++ "_" ++ t).data = b.data ++ '_' :: t.data := by
    show (b.data ++ "_".data) ++ t.data = b.data ++ '_' :: t.data
    simp
  unfold splitFirstUnderscore
  rw [hd, splitFirstAux_append _ _ h]

/-- Modelled from the spec (§4.4 step 3): the first session, in pool
iteration order, whose reported catalog contains the local name; a session
whose catalog fetch fails reports no tools and is skipped. -/
def firstMatchingSession : Pool → String → Option Session
  | [], _ => none
  | (_, s) :: rest, actual =>
    if (sessionToolNames s).contains actual then some s
    else firstMatchingSession rest actual

/-- The source's scan loop computes exactly the first-match specification. -/
theorem scanForTool_eq_firstMatching (pool : Pool) (actual : String) :
    scanForTool pool actual = firstMatchingSession pool actual := by
  induction pool with
  | nil => rfl
  | cons p rest ih =>
    obtain ⟨k, s⟩ := p
    unfold scanForTool firstMatchingSession sessionToolNames
    cases s.listTools with
    | error e => simpa using ih
    | ok tools => rw [ih]

/-- Claim C3 (confirmed): `execute_tool_call` never raises to its caller:
for every parse oracle, pool, invoked name and raw-arguments field, the
result is an ordinary `Except.ok` string — protocol exceptions from the
backend call, JSON-argument-parse failures and error outcomes are all
rendered into the returned string. -/
theorem C3_execute_never_raises (parse : String → Option Json) (pool : Pool)
    (fnName : String) (argumentsRaw : Option String) :
    ∃ s, execute_tool_call parse pool fnName argumentsRaw = Except.ok s := by
  unfold execute_tool_call executeWithArgs
  rcases resolveTool pool fnName with ⟨actual, so⟩
  cases so with
  | none => exact ⟨_, rfl⟩
  | some session => exact ⟨_, rfl⟩

/-- Claim C8 (confirmed): a raw-arguments string on which the JSON parse
fails degrades to the empty argument object, and the call proceeds through
resolution and execution with those empty arguments. (The empty string — not
valid JSON either — is first replaced by the empty-object literal, whose
parse the second hypothesis fixes to the empty object, as `json.loads`
does.) -/
theorem C8_malformed_args_degrade (parse : String → Option Json) (pool : Pool)
    (fnName : String) (raw : String) (hparse : parse raw = none)
    (hobj : parse "\x7b\x7d" = some (Json.obj [])) :
    execute_tool_call parse pool fnName (some raw) =
      executeWithArgs parse pool fnName (Json.obj []) := by
  unfold execute_tool_call argsOf
  by_cases hr : raw = ""
  · subst hr
    simp [hobj]
  · simp [hr, hparse]

/-- The `json.loads` oracle fixed only on the empty-object literal. -/
def emptyObjParse : String → Option Json :=
  fun s => if s = "\x7b\x7d" then some (Json.obj []) else none

/-- Witness for C8 at a concrete malformed-JSON input. -/
theorem C8_witness :
    execute_tool_call emptyObjParse poolAB "alpha_search" (some "not json") =
      executeWithArgs emptyObjParse poolAB "alpha_search" (Json.obj []) :=
  C8_malformed_args_degrade emptyObjParse poolAB "alpha_search" "not json"
    rfl rfl

/-- Claim C10 (confirmed): an absent/None raw-arguments field and the empty
string are both replaced by the literal string of an empty JSON object
before parsing, so the call behaves identically to arguments `"\x7b\x7d"`. -/
theorem C10_absent_args_like_empty_object (parse : String → Option Json)
    (pool : Pool) (fnName : String) :
    execute_tool_call parse pool fnName none =
      execute_tool_call parse pool fnName (some "\x7b\x7d") ∧
    execute_tool_call parse pool fnName (some "") =
      execute_tool_call parse pool fnName (some "\x7b\x7d") := by
  constructor <;> · unfold execute_tool_call argsOf; simp

/-- A pool in which a live backend is registered under the empty name and a
backend `x` precedes it, both exposing a local tool `t`. -/
def poolEdge : Pool := [("x", constSession ["t"] "X"), ("", constSession ["t"] "E")]

/-- Claim C1 (counterexample): a live session may be registered under the
empty backend name; invoking `"_t"` splits into backend `""` and local name
`t`, but Python's truthiness test `if server_name and ...` treats the empty
candidate as falsy, so the call is NOT routed to the live session named `""`
(whose dispatch would render `"E:t"`): the fallback scan picks the earlier
backend `x` instead. -/
theorem C1_counterexample :
    (lookupPool poolEdge "").isSome = true ∧
    dispatchCall (fun _ => none) (constSession ["t"] "E") "t"
      (argsOf (fun _ => none) none) = "E:t" ∧
    execute_tool_call (fun _ => none) poolEdge "_t" none = Except.ok "X:t" :=
  ⟨rfl, rfl, rfl⟩

/-- Claim C1 (amended): for every live session registered under a NON-EMPTY,
underscore-free backend name `b`, invoking `b ++ "_" ++ t` routes to that
session with local name `t` — regardless of which tools any other backend
exposes (no hypothesis constrains the rest of the pool). -/
theorem C1_amended_prefixed_name_routes (parse : String → Option Json)
    (pool : Pool) (b t : String) (sb : Session) (raw : Option String)
    (hb : lookupPool pool b = some sb) (hne : b ≠ "") (hnu : '_' ∉ b.data) :
    execute_tool_call parse pool (b ++ "_" ++ t) raw =
      Except.ok (dispatchCall parse sb t (argsOf parse raw)) := by
  unfold execute_tool_call executeWithArgs resolveTool
  rw [splitFirstUnderscore_qualified b t hnu]
  simp [hne, hb]

/-- Witness for the amended C1: `alpha_search` routes to backend `alpha`
even though `beta` also exposes a local tool `search`. -/
theorem C1_amended_witness :
    execute_tool_call (fun _ => none) poolAB ("alpha" ++ "_" ++ "search") none =
      Except.ok (dispatchCall (fun _ => none) (constSession ["search"] "A") "search"
        (argsOf (fun _ => none) none)) :=
  C1_amended_prefixed_name_routes (fun _ => none) poolAB "alpha" "search"
    (constSession ["search"] "A") none rfl (by decide) (by decide)

/-- A single backend whose only local tool name itself contains an
underscore. -/
def poolS : Pool := [("srv", constSession ["xxx_search"] "S")]

/-- Claim C2 (counterexample): invoking `"xxx_search"` when no backend is
named `xxx` falls back to the scan, but the scan matches the post-split
local name `"search"`, not the invoked name: the live catalog contains the
invoked name `"xxx_search"` and yet resolution reports not-found (naming
`search`). -/
theorem C2_counterexample :
    (sessionToolNames (constSession ["xxx_search"] "S")).contains "xxx_search" = true ∧
    splitFirstUnderscore "xxx_search" = some ("xxx", "search") ∧
    (lookupPool poolS "xxx").isNone = true ∧
    execute_tool_call (fun _ => none) poolS "xxx_search" none =
      Except.ok "Error: Tool \x27search\x27 not found in any connected server" :=
  ⟨rfl, rfl, rfl, rfl⟩

/-- The local tool name the source scans for: the part after the first
underscore when the invoked name contains one, the whole name otherwise. -/
def localNameOf (fnName : String) : String :=
  match splitFirstUnderscore fnName with
  | none => fnName
  | some (_, suf) => suf

/-- Claim C2 (amended): when the invoked name has no underscore, or its
first-underscore candidate backend is empty or not live, resolution falls
back to a linear scan in pool iteration order matching the POST-SPLIT local
name (`localNameOf`) against each successfully fetched catalog; the first
matching session is dispatched to, and if none matches the result is the
not-found string naming that local name. -/
theorem C2_amended_scan_uses_local_name (parse : String → Option Json)
    (pool : Pool) (fnName : String) (raw : Option String)
    (h : ∀ pre suf, splitFirstUnderscore fnName = some (pre, suf) →
        pre = "" ∨ lookupPool pool pre = none) :
    execute_tool_call parse pool fnName raw =
      (match firstMatchingSession pool (localNameOf fnName) with
       | some s =>
         Except.ok (dispatchCall parse s (localNameOf fnName) (argsOf parse raw))
       | none =>
         Except.ok ("Error: Tool \x27" ++ localNameOf fnName ++
           "\x27 not found in any connected server")) := by
  unfold execute_tool_call executeWithArgs resolveTool localNameOf
  cases hs : splitFirstUnderscore fnName with
  | none =>
    rw [← scanForTool_eq_firstMatching]
    cases scanForTool pool fnName <;> rfl
  | some ps =>
    obtain ⟨pre, suf⟩ := ps
    rcases h pre suf hs with hemp | hnone
    · subst hemp
      simp only [if_pos rfl]
      rw [← scanForTool_eq_firstMatching]
      cases scanForTool pool suf <;> rfl
    · by_cases hpre : pre = ""
      · subst hpre
        simp only [if_pos rfl]
        rw [← scanForTool_eq_firstMatching]
        cases scanForTool pool suf <;> rfl
      · simp only [if_neg hpre]
        rw [hnone, ← scanForTool_eq_firstMatching]
        cases scanForTool pool suf <;> rfl

/-- Witness for the amended C2 at the concrete unknown-prefix input. -/
theorem C2_amended_witness :
    execute_tool_call (fun _ => none) poolS "xxx_search" none =
      (match firstMatchingSession poolS (localNameOf "xxx_search") with
       | some s =>
         Except.ok (dispatchCall (fun _ => none) s (localNameOf "xxx_search")
           (argsOf (fun _ => none) none))
       | none =>
         Except.ok ("Error: Tool \x27" ++ localNameOf "xxx_search" ++
           "\x27 not found in any connected server")) :=
  C2_amended_scan_uses_local_name (fun _ => none) poolS "xxx_search" none
    (by
      intro pre suf h
      have h2 : splitFirstUnderscore "xxx_search" = some ("xxx", "search") := by
        decide
      rw [h2] at h
      have h3 : pre = "xxx" := (congrArg Prod.fst (Option.some.inj h)).symm
      subst h3
      right
      rfl)

/-- A parse oracle that decodes the marker text `IMG` as an image-result
object and fails on everything else. -/
def imgParse : String → Option Json :=
  fun s =>
    if s = "IMG" then
      some (Json.obj [("type", Json.str "image_result"),
                      ("image_base64", Json.str "QUJD")])
    else none

/-- A session whose calls return a one-item content list whose first item's
text is the image marker. -/
def imgSession : Session :=
  { listTools := Except.ok [toolSpecNamed "shot"]
    callTool := fun _ _ => Except.ok
      { content := some (MCPContent.items [ContentItem.text "IMG"] "[TextContent]")
        strRepr := "res" } }

/-- Claim C6 (confirmed): whenever the backend response's content is a
non-empty item list whose first item's text parses as a JSON object with
`type == "image_result"` and an `image_base64` key — or is a single such
object — the rendered result is the short placeholder naming the tool; the
conclusion is the same fixed string for every payload satisfying the shape
check, so the base64 payload never appears in it. -/
theorem C6_image_placeholder (parse : String → Option Json) (pool : Pool)
    (fnName : String) (raw : Option String) (actual : String) (sess : Session)
    (hres : resolveTool pool fnName = (actual, some sess)) :
    (∀ t rest strRepr res fields,
      sess.callTool actual (argsOf parse raw) = Except.ok res →
      res.content = some (MCPContent.items (ContentItem.text t :: rest) strRepr) →
      parse t = some (Json.obj fields) → isImageResultObj fields = true →
      execute_tool_call parse pool fnName raw = Except.ok (imagePlaceholder actual)) ∧
    (∀ res fields,
      sess.callTool actual (argsOf parse raw) = Except.ok res →
      res.content = some (MCPContent.dict fields) → isImageResultObj fields = true →
      execute_tool_call parse pool fnName raw = Except.ok (imagePlaceholder actual)) := by
  constructor
  · intro t rest strRepr res fields hcall hcontent hparse himg
    simp only [execute_tool_call, executeWithArgs, hres, dispatchCall, hcall,
      renderResult, hcontent, processContent, hparse, himg, if_pos]
  · intro res fields hcall hcontent himg
    simp only [execute_tool_call, executeWithArgs, hres, dispatchCall, hcall,
      renderResult, hcontent, processContent, himg, if_pos]

/-- Witness for C6 at a concrete image-shaped response. -/
theorem C6_witness :
    execute_tool_call imgParse [("pix", imgSession)] "pix_shot" none =
      Except.ok (imagePlaceholder "shot") :=
  (C6_image_placeholder imgParse [("pix", imgSession)] "pix_shot" none "shot"
      imgSession rfl).1
    "IMG" [] "[TextContent]"
    { content := some (MCPContent.items [ContentItem.text "IMG"] "[TextContent]")
      strRepr := "res" }
    [("type", Json.str "image_result"), ("image_base64", Json.str "QUJD")]
    rfl rfl rfl rfl

/-- Ten mebibytes of the letter `a`: a string of exactly the size limit. -/
def bigChars : List Char := List.replicate (10 * 1024 * 1024) 'a'

/-- A local tool name of exactly the size limit. -/
def bigName : String := String.mk bigChars

/-- The qualified invoked name `srv_<bigName>`. -/
def bigFnName : String := String.mk ('s' :: 'r' :: 'v' :: '_' :: bigChars)

/-- The pool routing `srv_*` to the image-returning session. -/
def bigPool : Pool := [("srv", imgSession)]

/-- String length distributes over append (by computing on the data). -/
theorem string_length_append (a b : String) :
    (a ++ b).length = a.length + b.length := by
  show (a.data ++ b.data).length = a.data.length + b.data.length
  exact List.length_append a.data b.data

/-- Claim C5 (counterexample): the image-placeholder path returns before the
size gate, so a returned result CAN exceed 10×1024×1024 characters: with a
local tool name of exactly the limit, the placeholder is 32 characters
longer than the limit and is returned as the call result rather than the
fixed-shape summary. -/
theorem C5_counterexample :
    execute_tool_call imgParse bigPool bigFnName none =
      Except.ok (imagePlaceholder bigName) ∧
    maxResultSize < (imagePlaceholder bigName).length := by
  constructor
  · rfl
  · have hb : bigName.length = 10 * 1024 * 1024 := by
      show (List.replicate (10 * 1024 * 1024) 'a').length = 10 * 1024 * 1024
      exact List.length_replicate _ _
    have h1 : (imagePlaceholder bigName).length = 18 + (10 * 1024 * 1024) + 14 := by
      unfold imagePlaceholder
      rw [string_length_append, string_length_append, hb]
      decide
    rw [h1]
    decide

/-- Claim C5 (amended): a result string produced by the serialization path
(`content_str`, i.e. a `RenderStep.body`) is subject to the size gate:
strictly longer than 10×1024×1024 characters it is replaced by the
fixed-shape summary naming the tool and the measured size, while at exactly
10×1024×1024 characters it is returned unmodified; the image-placeholder
and error paths return without passing through the gate. -/
theorem C5_amended_size_gate (parse : String → Option Json) (pool : Pool)
    (fnName : String) (raw : Option String) (actual : String) (sess : Session)
    (res : CallToolResult) (bs : String)
    (hres : resolveTool pool fnName = (actual, some sess))
    (hcall : sess.callTool actual (argsOf parse raw) = Except.ok res)
    (hbody : processContent parse actual res.content res.strRepr = RenderStep.body bs) :
    (bs.length = maxResultSize →
      execute_tool_call parse pool fnName raw = Except.ok bs) ∧
    (maxResultSize < bs.length →
      execute_tool_call parse pool fnName raw =
        Except.ok (largeResultSummary actual bs.length)) := by
  have hexec : execute_tool_call parse pool fnName raw =
      Except.ok (if bs.length > maxResultSize then
        largeResultSummary actual bs.length else bs) := by
    simp only [execute_tool_call, executeWithArgs, hres, dispatchCall, hcall,
      renderResult, hbody]
  constructor
  · intro h
    rw [hexec, if_neg (by omega)]
  · intro h
    rw [hexec, if_pos (by omega)]

/-- A session whose call result stringifies to exactly the size limit. -/
def limitSession : Session :=
  { listTools := Except.ok [toolSpecNamed "w"]
    callTool := fun _ _ => Except.ok
      { content := some (MCPContent.items [ContentItem.noText] bigName)
        strRepr := "res" } }

/-- Witness for the amended C5: a body of exactly 10×1024×1024 characters
is returned unmodified. -/
theorem C5_amended_witness :
    execute_tool_call (fun _ => none) [("lim", limitSession)] "w" none =
      Except.ok bigName :=
  (C5_amended_size_gate (fun _ => none) [("lim", limitSession)] "w" none "w"
      limitSession
      { content := some (MCPContent.items [ContentItem.noText] bigName)
        strRepr := "res" }
      bigName rfl rfl rfl).1
    (by
      show (List.replicate (10 * 1024 * 1024) 'a').length = maxResultSize
      exact List.length_replicate _ _)

/-- The captured `original_env` records exactly the overridden keys, in
override order. -/
theorem applyOverrides_caps_keys (ov : List (String × String)) (e : Env) :
    (applyOverrides ov e).2.map Prod.fst = ov.map Prod.fst := by
  induction ov generalizing e with
  | nil => rfl
  | cons p rest ih =>
    obtain ⟨k0, v0⟩ := p
    simp [applyOverrides, ih]

/-- Applying the overrides does not touch keys outside the override map. -/
theorem applyOverrides_not_mem (ov : List (String × String)) (e : Env)
    (k : String) (hk : k ∉ ov.map Prod.fst) :
    (applyOverrides ov e).1 k = e k := by
  induction ov generalizing e with
  | nil => rfl
  | cons p rest ih =>
    obtain ⟨k0, v0⟩ := p
    simp only [List.map_cons, List.mem_cons, not_or] at hk
    simp only [applyOverrides]
    rw [ih _ hk.2]
    simp [envSet, hk.1]

/-- Restoring captures does not touch keys outside the captured list. -/
theorem restoreEnv_not_mem (caps : List (String × Option String)) (e : Env)
    (k : String) (hk : k ∉ caps.map Prod.fst) :
    restoreEnv caps e k = e k := by
  induction caps generalizing e with
  | nil => rfl
  | cons p rest ih =>
    obtain ⟨k0, o0⟩ := p
    simp only [List.map_cons, List.mem_cons, not_or] at hk
    simp only [restoreEnv]
    rw [ih _ hk.2]
    cases o0 <;> simp [envPop, envSet, hk.1]

/-- Restoring a captured entry reinstates exactly the captured value
(removing the key when the capture was `None`). -/
theorem restoreEnv_mem (caps : List (String × Option String)) (e : Env)
    (k : String) (orig : Option String)
    (hnd : (caps.map Prod.fst).Nodup) (hmem : (k, orig) ∈ caps) :
    restoreEnv caps e k = orig := by
  induction caps generalizing e with
  | nil => simp at hmem
  | cons p rest ih =>
    obtain ⟨k0, o0⟩ := p
    simp only [List.map_cons, List.nodup_cons] at hnd
    rcases List.mem_cons.mp hmem with heq | htail
    · obtain ⟨hk, ho⟩ := Prod.mk.injEq k orig k0 o0 |>.mp heq
      subst hk; subst ho
      simp only [restoreEnv]
      have hout : k ∉ rest.map Prod.fst := hnd.1
      rw [restoreEnv_not_mem rest _ k hout]
      cases orig <;> simp [envPop, envSet]
    · simp only [restoreEnv]
      exact ih _ hnd.2 htail

/-- The capture loop records the pre-override value of every overridden
key (earlier overrides have distinct keys, so they do not disturb it). -/
theorem applyOverrides_capture (ov : List (String × String)) (e : Env)
    (k : String) (hnd : (ov.map Prod.fst).Nodup) (hk : k ∈ ov.map Prod.fst) :
    (k, e k) ∈ (applyOverrides ov e).2 := by
  induction ov generalizing e with
  | nil => simp at hk
  | cons p rest ih =>
    obtain ⟨k0, v0⟩ := p
    simp only [List.map_cons, List.nodup_cons] at hnd
    simp only [List.map_cons, List.mem_cons] at hk
    simp only [applyOverrides, List.mem_cons]
    rcases hk with heq | htail
    · subst heq
      left
      rfl
    · have hne : k ≠ k0 := fun h => hnd.1 (h ▸ htail)
      right
      have := ih (envSet e k0 v0) hnd.2 htail
      rwa [envSet, if_neg hne] at this

/-- Save/apply followed by restore is the identity on every key, pointwise,
when the override keys are distinct (they are: Python dicts cannot repeat
keys). -/
theorem restore_applyOverrides (ov : List (String × String)) (e : Env)
    (hnd : (ov.map Prod.fst).Nodup) (k : String) :
    restoreEnv (applyOverrides ov e).2 (applyOverrides ov e).1 k = e k := by
  by_cases hk : k ∈ ov.map Prod.fst
  · refine restoreEnv_mem _ _ _ _ ?_ (applyOverrides_capture ov e k hnd hk)
    rw [applyOverrides_caps_keys]
    exact hnd
  · rw [restoreEnv_not_mem _ _ _ (by rw [applyOverrides_caps_keys]; exact hk)]
    exact applyOverrides_not_mem _ _ _ hk

/-- Claim C4 (confirmed): for a connect attempt with a non-empty override
map with distinct keys, every process-wide environment variable is restored
after the attempt to its exact prior value (or absence) — the conclusion
holds for every `launch` outcome, i.e. on the success and the failure path
alike — and a variable not named in the override map is never changed, even
while the launch runs under the overridden environment. -/
theorem C4_env_restored (launch : ServerConfig → Env → Except String Session)
    (sc : ServerConfig) (env : Env) (ov : List (String × String))
    (henv : sc.env = some ov) (hne : ov ≠ [])
    (hnd : (ov.map Prod.fst).Nodup) :
    (∀ k, (connectAttempt launch sc env).1 k = env k) ∧
    (∀ k, k ∉ ov.map Prod.fst → (applyOverrides ov env).1 k = env k) := by
  constructor
  · intro k
    cases ov with
    | nil => exact absurd rfl hne
    | cons hd tl =>
      simp only [connectAttempt, henv, List.isEmpty_cons, Bool.false_eq_true,
        if_false]
      exact restore_applyOverrides (hd :: tl) env hnd k
  · intro k hk
    exact applyOverrides_not_mem ov env k hk

/-- A descriptor overriding one variable. -/
def scFix : ServerConfig :=
  { name := "w", description := "", command := "cmd", args := []
    env := some [("KEY", "VAL")] }

/-- Witness for C4: a failing launch under an override still restores the
overridden variable, and an unrelated variable stays untouched mid-attempt. -/
theorem C4_witness :
    (connectAttempt (fun _ _ => Except.error "boom") scFix (fun _ => none)).1 "KEY"
      = none ∧
    (applyOverrides [("KEY", "VAL")] (fun _ => none)).1 "OTHER" = none := by
  have h := C4_env_restored (fun _ _ => Except.error "boom") scFix (fun _ => none)
    [("KEY", "VAL")] rfl (by decide) (by decide)
  exact ⟨h.1 "KEY", h.2 "OTHER" (by decide)⟩

/-- Splitting at a separator absent from both left parts is injective. -/
theorem append_sep_inj (l1 : List Char) (r1 : List Char) :
    ∀ (l2 r2 : List Char), '_' ∉ l1 → '_' ∉ l2 →
    l1 ++ '_' :: r1 = l2 ++ '_' :: r2 → l1 = l2 ∧ r1 = r2 := by
  induction l1 with
  | nil =>
    intro l2 r2 _ h2 heq
    cases l2 with
    | nil => simpa using heq
    | cons c cs =>
      simp only [List.nil_append, List.cons_append, List.cons.injEq] at heq
      exact absurd (heq.1 ▸ List.mem_cons_self c cs) h2
  | cons c cs ih =>
    intro l2 r2 h1 h2 heq
    cases l2 with
    | nil =>
      simp only [List.cons_append, List.nil_append, List.cons.injEq] at heq
      exact absurd (heq.1 ▸ List.mem_cons_self c cs) h1
    | cons d ds =>
      simp only [List.cons_append, List.cons.injEq] at heq
      have h1' : '_' ∉ cs := fun h => h1 (List.mem_cons_of_mem c h)
      have h2' : '_' ∉ ds := fun h => h2 (List.mem_cons_of_mem d h)
      obtain ⟨hl, hr⟩ := ih ds r2 h1' h2' heq.2
      exact ⟨by rw [heq.1, hl], hr⟩

/-- A qualified name determines its underscore-free backend name and its
local name. -/
theorem qualified_inj (b1 t1 b2 t2 : String)
    (h1 : '_' ∉ b1.data) (h2 : '_' ∉ b2.data)
    (heq : b1 ++ "_" ++ t1 = b2 ++ "_" ++ t2) : b1 = b2 ∧ t1 = t2 := by
  have hd0 := congrArg String.data heq
  have hd1 : (b1.data ++ '_' :: []) ++ t1.data = (b2.data ++ '_' :: []) ++ t2.data :=
    hd0
  have hd : b1.data ++ '_' :: t1.data = b2.data ++ '_' :: t2.data := by
    simpa [List.append_assoc] using hd1
  obtain ⟨hb, ht⟩ := append_sep_inj b1.data t1.data b2.data t2.data h1 h2 hd
  exact ⟨congrArg String.mk hb, congrArg String.mk ht⟩

/-- The catalog of a pool decomposes backend by backend into qualified
local names. -/
theorem catalogNames_cons (k : String) (s : Session) (rest : Pool) :
    catalogNames ((k, s) :: rest) =
      (sessionToolNames s).map (fun t => k ++ "_" ++ t) ++ catalogNames rest := by
  cases hl : s.listTools with
  | error e =>
    simp only [catalogNames, get_all_tools, hl, sessionToolNames]
    simp
  | ok tools =>
    simp only [catalogNames, get_all_tools, hl, sessionToolNames]
    simp [mcp_tools_to_openai_tools, List.map_map, Function.comp]

/-- Every catalog name is the qualified name of some pool entry's local
tool. -/
theorem mem_catalogNames (pool : Pool) (x : String) (hx : x ∈ catalogNames pool) :
    ∃ p ∈ pool, ∃ t ∈ sessionToolNames p.2, x = p.1 ++ "_" ++ t := by
  induction pool with
  | nil => simp [catalogNames, get_all_tools] at hx
  | cons p rest ih =>
    obtain ⟨k, s⟩ := p
    rw [catalogNames_cons] at hx
    rcases List.mem_append.mp hx with hl | hr
    · obtain ⟨t, ht, hxt⟩ := List.mem_map.mp hl
      exact ⟨(k, s), List.mem_cons_self _ _, t, ht, hxt.symm⟩
    · obtain ⟨q, hq, t, ht, hxt⟩ := ih hr
      exact ⟨q, List.mem_cons_of_mem _ hq, t, ht, hxt⟩

/-- Two backends with unique names and per-backend-unique local tool names
whose qualified names nevertheless collide. -/
def poolCollide : Pool :=
  [("a", constSession ["b_c"] "A"), ("a_b", constSession ["c"] "B")]

/-- Claim C7 (counterexample): backend names are unique and local tool
names are unique within each backend, yet the aggregated catalog contains
the qualified name `a_b_c` twice, because a backend name may itself contain
an underscore. -/
theorem C7_counterexample :
    (poolCollide.map Prod.fst).Nodup ∧
    (∀ p ∈ poolCollide, (sessionToolNames p.2).Nodup) ∧
    catalogNames poolCollide = ["a_b_c", "a_b_c"] ∧
    ¬ (catalogNames poolCollide).Nodup := by
  refine ⟨by decide, by decide, rfl, by decide⟩

/-- Claim C7 (amended): qualified names are unique across the aggregated
catalog provided backend names are unique, contain no underscore, and local
tool names are unique within each backend. -/
theorem C7_amended_catalog_nodup (pool : Pool)
    (hnd : (pool.map Prod.fst).Nodup)
    (hnu : ∀ p ∈ pool, '_' ∉ p.1.data)
    (hloc : ∀ p ∈ pool, (sessionToolNames p.2).Nodup) :
    (catalogNames pool).Nodup := by
  induction pool with
  | nil => simp [catalogNames, get_all_tools]
  | cons p rest ih =>
    obtain ⟨k, s⟩ := p
    rw [catalogNames_cons]
    simp only [List.map_cons, List.nodup_cons] at hnd
    have hk : '_' ∉ k.data := hnu (k, s) (List.mem_cons_self _ _)
    refine List.Nodup.append ?_ ?_ ?_
    · have hinj : Function.Injective (fun t : String => k ++ "_" ++ t) := by
        intro t1 t2 h12
        exact (qualified_inj k t1 k t2 hk hk h12).2
      exact (hloc (k, s) (List.mem_cons_self _ _)).map hinj
    · exact ih hnd.2 (fun q hq => hnu q (List.mem_cons_of_mem _ hq))
        (fun q hq => hloc q (List.mem_cons_of_mem _ hq))
    · intro x hx1 hx2
      obtain ⟨t, ht, hxt⟩ := List.mem_map.mp hx1
      obtain ⟨q, hq, u, hu, hxu⟩ := mem_catalogNames rest x hx2
      have hqu : '_' ∉ q.1.data := hnu q (List.mem_cons_of_mem _ hq)
      obtain ⟨hb, _⟩ := qualified_inj k t q.1 u hk hqu (hxt.symm ▸ hxu)
      exact hnd.1 (hb ▸ List.mem_map_of_mem Prod.fst hq)

/-- Witness for the amended C7 on a concrete two-backend pool. -/
theorem C7_amended_witness : (catalogNames poolAB).Nodup :=
  C7_amended_catalog_nodup poolAB (by decide) (by decide) (by decide)

/-- Dict assignment with a fresh key appends the binding. -/
theorem poolInsert_not_mem (pool : Pool) (k : String) (s : Session)
    (hk : k ∉ pool.map Prod.fst) :
    poolInsert pool k s = pool ++ [(k, s)] := by
  induction pool with
  | nil => rfl
  | cons p rest ih =>
    obtain ⟨k0, s0⟩ := p
    simp only [List.map_cons, List.mem_cons, not_or] at hk
    simp only [poolInsert]
    rw [if_neg (fun h => hk.1 h.symm), ih hk.2]
    rfl

/-- `connect_all_servers` grows the starting pool by exactly the successful
attempts, in order, when backend names are distinct and fresh. -/
theorem connect_all_pool (launch : ServerConfig → Env → Except String Session)
    (servers : List ServerConfig) :
    ∀ (env : Env) (pool : Pool),
    (pool.map Prod.fst ++ servers.map ServerConfig.name).Nodup →
    (connect_all_servers launch env pool servers).2 =
      pool ++ specSuccessPool launch env servers := by
  induction servers with
  | nil =>
    intro env pool h
    simp [connect_all_servers, specSuccessPool]
  | cons sc rest ih =>
    intro env pool h
    have hmid := (List.nodup_middle).mp h
    simp only [List.nodup_cons] at hmid
    have hfresh : sc.name ∉ pool.map Prod.fst :=
      fun hc => hmid.1 (List.mem_append.mpr (Or.inl hc))
    simp only [connect_all_servers, specSuccessPool, connect_server]
    cases hca : connectAttempt launch sc env with
    | mk env2 r =>
      cases r with
      | ok session =>
        dsimp only
        rw [poolInsert_not_mem pool sc.name session hfresh]
        have hnd2 : ((pool ++ [(sc.name, session)]).map Prod.fst ++
            rest.map ServerConfig.name).Nodup := by
          simp only [List.map_append, List.append_assoc]
          simpa using h
        rw [ih env2 (pool ++ [(sc.name, session)]) hnd2]
        simp [List.append_assoc]
      | error e =>
        dsimp only
        exact ih env2 pool hmid.2

/-- Claim C9 (confirmed): starting from an empty pool, `connect_all_servers`
attempts every descriptor in order, a failed attempt is caught without
aborting the remaining ones, and the resulting pool contains exactly the
sessions of the backends whose attempts succeeded, keyed by their (distinct)
names, in order. -/
theorem C9_connect_all_best_effort
    (launch : ServerConfig → Env → Except String Session) (env : Env)
    (servers : List ServerConfig)
    (hnd : (servers.map ServerConfig.name).Nodup) :
    (connect_all_servers launch env [] servers).2 =
      specSuccessPool launch env servers := by
  have h := connect_all_pool launch servers env [] (by simpa using hnd)
  simpa using h

/-- A launcher that fails exactly for the backend named `bad`. -/
def launchFix : ServerConfig → Env → Except String Session :=
  fun sc _ =>
    if sc.name = "bad" then Except.error "boom"
    else Except.ok (constSession [] sc.name)

/-- Three descriptors, the middle one doomed to fail. -/
def serversFix : List ServerConfig :=
  [{ name := "one", description := "", command := "c", args := [], env := none },
   { name := "bad", description := "", command := "c", args := [], env := none },
   { name := "two", description := "", command := "c", args := [], env := none }]

/-- Witness for C9: the failed middle backend is skipped, the others land
in the pool. -/
theorem C9_witness :
    (connect_all_servers launchFix (fun _ => none) [] serversFix).2 =
      specSuccessPool launchFix (fun _ => none) serversFix :=
  C9_connect_all_best_effort launchFix (fun _ => none) serversFix (by decide)
